import Mathlib

/-!
Verification development for the Insta_automation repository.

The Python sources are shallowly embedded as Lean definitions:
pure text manipulation becomes functions on `List Char`, the filesystem
becomes explicit maps / lists of entries, exceptions become `Except` /
an explicit outcome type, and `float` arithmetic on file sizes becomes
exact rational arithmetic.
-/

namespace InstaAuto

/-! ## utils.py: retry decorator

`retry(max_attempts, delay, backoff)` wraps `func`; model the wrapped
call sequence as `op : Nat → Except E A` (the outcome of the i-th
invocation), and return the final outcome together with the list of
sleep durations performed, in order.  `none` is the implicit
`return None` of Python, reached only when the `while` loop never runs
(`max_attempts = 0`). -/

/-- The retry loop of `utils.retry`, with `fuel = max_attempts - attempt`.
With one attempt remaining, the outcome of that attempt is returned as-is
(an exception is re-raised); otherwise a failure sleeps `d` and retries
with delay `d * backoff`. -/
def retryGo {E A : Type} (op : Nat → Except E A) (backoff : ℚ) :
    Nat → ℚ → Nat → Option (Except E A) × List ℚ
  | _, _, 0 => (none, [])
  | attempt, _, 1 => (some (op attempt), [])
  | attempt, d, fuel + 2 =>
    match op attempt with
    | .ok v => (some (.ok v), [])
    | .error _ =>
      let r := retryGo op backoff (attempt + 1) (d * backoff) (fuel + 1)
      (r.1, d :: r.2)

/-- `utils.retry(max_attempts, delay, backoff)` applied to an operation. -/
def retry {E A : Type} (maxAttempts : Nat) (delay backoff : ℚ)
    (op : Nat → Except E A) : Option (Except E A) × List ℚ :=
  retryGo op backoff 0 delay maxAttempts

/-- Whether an `Except` value is an error (a raised exception). -/
def isErr {E A : Type} : Except E A → Bool
  | .error _ => true
  | .ok _ => false

/-! ## utils.py: file validation

The filesystem is a map from paths to `none` (no such file) or
`some bytes`.  `os.path.getsize` failures are impossible for existing
files in this model; `get_file_size_mb` returns `0.0` on exception. -/

/-- `utils.get_file_size_mb`: size in MB, `0.0` when `getsize` raises. -/
def get_file_size_mb (sz : Option ℕ) : ℚ :=
  match sz with
  | none => 0
  | some bytes => (bytes : ℚ) / (1024 * 1024)

/-- `utils.validate_video_file(file_path, min_size_mb)` over a
filesystem `fs`. -/
def validate_video_file (fs : String → Option ℕ) (path : String)
    (minSizeMb : ℚ) : Bool :=
  match fs path with
  | none => false
  | some bytes =>
    if (bytes : ℚ) / (1024 * 1024) < minSizeMb then false else true

/-! ## utils.py: cleanup_temp_files

A directory state is a list of `FileEntry` (name and mtime); the glob
pattern becomes a predicate on names.  `sorted(..., key=mtime,
reverse=True)` is a stable descending sort, which `List.insertionSort`
with the relation `b.mtime ≤ a.mtime` reproduces exactly (both are
stable sorts for the same total preorder). -/

structure FileEntry where
  name : String
  mtime : ℕ
deriving DecidableEq, Repr

/-- Descending-by-mtime relation used for `sorted(..., reverse=True)`. -/
def recentFirst (a b : FileEntry) : Prop := b.mtime ≤ a.mtime

instance : DecidableRel recentFirst :=
  fun a b => Nat.decLe b.mtime a.mtime

instance : IsTotal FileEntry recentFirst :=
  ⟨fun a b => le_total b.mtime a.mtime⟩

instance : IsTrans FileEntry recentFirst :=
  ⟨fun _ _ _ h1 h2 => le_trans h2 h1⟩

/-- `utils.cleanup_temp_files(directory, pattern, keep_recent)`: sort the
matching files most-recent-first and unlink everything after the first
`keep_recent` of them. -/
def cleanup_temp_files (files : List FileEntry) (pat : String → Bool)
    (keepRecent : ℕ) : List FileEntry :=
  let matching := files.filter (fun f => pat f.name)
  let toDelete := (matching.insertionSort recentFirst).drop keepRecent
  files.filter (fun f => !(decide (f ∈ toDelete)))

/-! ## Text primitives shared by content_generator.py and reel_generator.py

Python strings are embedded as `List Char`. -/

/-- Python `sep.join(parts)`. -/
def pyJoin (sep : List Char) : List (List Char) → List Char
  | [] => []
  | [x] => x
  | x :: y :: rest => x ++ sep ++ pyJoin sep (y :: rest)

/-- Python `text.split()`: maximal runs of non-whitespace characters. -/
def pyWords : List Char → List (List Char)
  | [] => []
  | c :: rest =>
    let ws := pyWords rest
    if c.isWhitespace then ws
    else
      match rest with
      | [] => [[c]]
      | d :: _ =>
        if d.isWhitespace then [c] :: ws
        else
          match ws with
          | w :: ws2 => (c :: w) :: ws2
          | [] => [[c]]

/-- Python `s.rsplit(' ', 1)[0]`: everything before the last space
character, or the whole string when it has no space. -/
def beforeLastSpace (l : List Char) : List Char :=
  match l.reverse.dropWhile (fun c => !(c == ' ')) with
  | [] => l
  | _ :: rest => rest.reverse

def ellipsis : List Char := ['.', '.', '.']

/-! ## content_generator.py: HTML-tag stripping

In `re.sub` with pattern `<[^<]+?>` and empty replacement, a match is
a literal `<`, then a
non-empty lazy run of non-`<` characters, then `>`; lazily this is the
shortest such run, i.e. everything up to the first `>` that appears at
least one character after the `<`, with no intervening `<`. -/

/-- After the opening `<` and one consumed character, scan for the
closing `>`; fail on `<` or end of input.  Returns the remainder after
the match. -/
def findTagEnd : List Char → Option (List Char)
  | [] => none
  | c :: rest =>
    if c == '>' then some rest
    else if c == '<' then none
    else findTagEnd rest

/-- Try to match `[^<]+?>` directly after an opening `<`. -/
def findTag : List Char → Option (List Char)
  | [] => none
  | c :: rest => if c == '<' then none else findTagEnd rest

/-- Left-to-right replacement of all matches of `<[^<]+?>` by the empty
string, with fuel (a successful match consumes at least two characters,
so `l.length` fuel always suffices). -/
def stripTagsF : Nat → List Char → List Char
  | 0, l => l
  | _ + 1, [] => []
  | fuel + 1, c :: rest =>
    if c == '<' then
      match findTag rest with
      | some rest2 => stripTagsF fuel rest2
      | none => c :: stripTagsF fuel rest
    else c :: stripTagsF fuel rest

def stripTags (l : List Char) : List Char := stripTagsF l.length l

/-! ## content_generator.py: records and caption generation -/

/-- Result dict of `ContentGenerator.get_nasa_apod`. -/
structure ApodRec where
  title : List Char
  explanation : List Char
  image_url : List Char
  date : List Char
deriving DecidableEq, Repr

/-- Result dict of `ContentGenerator.get_trending_space_news`. -/
structure NewsRec where
  title : List Char
  summary : List Char
  link : List Char
deriving DecidableEq, Repr

/-- The content dict consumed by the caption builder: `title` plus the
body text looked up under the explanation key, falling back to the
summary key and then to the empty string. -/
structure CapContent where
  title : List Char
  body : List Char
deriving DecidableEq, Repr

def contentOfApod (a : ApodRec) : CapContent :=
  { title := a.title, body := a.explanation }

def contentOfNews (n : NewsRec) : CapContent :=
  { title := n.title, body := n.summary }

/-- The hard-coded fallback dict used when every source fails. -/
def placeholderContent : CapContent :=
  { title := "Amazing Space Discovery".toList,
    body := "The universe is full of wonders waiting to be discovered! 🌌✨".toList }

/-- `Config.BASE_HASHTAGS`. -/
def BASE_HASHTAGS : List (List Char) :=
  ["#space", "#astronomy", "#nasa", "#spacex", "#universe",
   "#cosmos", "#astrophysics", "#spaceexploration", "#ventureuniverse",
   "#spacenews", "#science", "#galaxy", "#stars", "#spacefacts"].map
    String.toList

def followLine : List Char :=
  "Follow @ventureuniverse for daily space updates! 🌌✨".toList

/-- The truncation step of `ContentGenerator.generate_caption`
(`explanation[:2000].rsplit(' ', 1)[0] + "..."` guarded by
`len(explanation) > 2000`). -/
def truncate_caption_text (explanation : List Char) : List Char :=
  if 2000 < explanation.length then
    beforeLastSpace (explanation.take 2000) ++ ellipsis
  else explanation

/-- Return dict of `ContentGenerator.generate_caption`. -/
structure CaptionResult where
  caption : List Char
  content : CapContent
  content_type : String
deriving Repr

/-- The source-selection logic at the top of `generate_caption`: try
the requested source, fall back to the other one, track the effective
content type. -/
def selectContent (contentType : String) (apod : Option ApodRec)
    (news : Option NewsRec) : Option CapContent × String :=
  if contentType = "apod" then
    match apod with
    | some a => (some (contentOfApod a), contentType)
    | none =>
      match news with
      | some n => (some (contentOfNews n), "news")
      | none => (none, "news")
  else
    match news with
    | some n => (some (contentOfNews n), contentType)
    | none =>
      match apod with
      | some a => (some (contentOfApod a), "apod")
      | none => (none, "apod")

/-- The caption assembly of `generate_caption`: clean the body of HTML
tags when a `<` is present, truncate it, and join the fixed parts with
newlines. -/
def buildCaption (content : CapContent) : List Char :=
  pyJoin ['\n']
    ["🚀 ".toList ++ content.title, [],
     truncate_caption_text
       (if content.body.contains '<' then stripTags content.body
        else content.body), [],
     followLine, [], pyJoin [' '] (BASE_HASHTAGS.take 10)]

/-- `ContentGenerator.generate_caption(content_type)`.  `apod` and
`news` are the outcomes of the two source fetches (`none` = the fetch
returned `None`). -/
def generate_caption (contentType : String) (apod : Option ApodRec)
    (news : Option NewsRec) : CaptionResult :=
  let sel := selectContent contentType apod news
  let content := sel.1.getD placeholderContent
  { caption := buildCaption content, content := content,
    content_type := sel.2 }

/-! ## content_generator.py: get_content_for_reel -/

/-- Return dict of `ContentGenerator.get_content_for_reel`. -/
structure ReelContent where
  type : String
  title : List Char
  text : List Char
  image_url : Option (List Char)
  description : List Char
deriving Repr

/-- The description truncation
`s[:150] + "..." if len(s) > 150 else s`. -/
def descTrunc (s : List Char) : List Char :=
  if 150 < s.length then s.take 150 ++ ellipsis else s

/-- The news / default branches of `get_content_for_reel`. -/
def newsOrDefault (news : Option NewsRec) : ReelContent :=
  match news with
  | some n =>
    { type := "news", title := n.title, text := n.title,
      image_url := none, description := descTrunc n.summary }
  | none =>
    { type := "default", title := "Space Discovery".toList,
      text := "Exploring the Universe".toList, image_url := none,
      description := "The cosmos awaits!".toList }

/-- `ContentGenerator.get_content_for_reel`: APOD first when it has a
truthy (non-empty) image URL, then news, then the hard-coded default. -/
def get_content_for_reel (apod : Option ApodRec) (news : Option NewsRec) :
    ReelContent :=
  match apod with
  | some a =>
    if a.image_url.isEmpty then newsOrDefault news
    else
      { type := "apod", title := a.title, text := a.title,
        image_url := some a.image_url,
        description := descTrunc a.explanation }
  | none => newsOrDefault news

/-! ## reel_generator.py: _wrap_text

The PIL width measurement `textbbox` is abstracted as a function
`wfn : List Char → ℕ`; the loop state is the list of finished lines and
the current line, both kept as lists of words. -/

def wrapAux (wfn : List Char → ℕ) (maxW : ℕ) :
    List (List Char) → List (List Char) → List (List (List Char)) →
    List (List (List Char))
  | [], current, lines =>
    if current.isEmpty then lines else lines ++ [current]
  | word :: rest, current, lines =>
    if wfn (pyJoin [' '] (current ++ [word])) ≤ maxW then
      wrapAux wfn maxW rest (current ++ [word]) lines
    else if current.isEmpty then
      wrapAux wfn maxW rest [word] lines
    else
      wrapAux wfn maxW rest [word] (lines ++ [current])

/-- `ReelGenerator._wrap_text(text, font, max_width)`: greedy word wrap
over `text.split()`, measuring candidate lines with `wfn`. -/
def wrapText (text : List Char) (wfn : List Char → ℕ) (maxW : ℕ) :
    List (List Char) :=
  (wrapAux wfn maxW (pyWords text) [] []).map (pyJoin [' '])

/-- Monotonicity of a width measurement: extending a string never
shrinks its measured width. -/
def MonoWidth (wfn : List Char → ℕ) : Prop :=
  ∀ s t : List Char, wfn s ≤ wfn (s ++ t)

/-- Width measurement used in concrete instances: the character count. -/
def charCountWidth (l : List Char) : ℕ := l.length

/-! ## instagram_bot.py: post_reel -/

/-- State consulted by one `post_reel` attempt: the `_is_logged_in`
flag, what `login()` would return if invoked, whether the video file
exists and its size, and the outcome of the underlying
`clip_upload` call (`ℕ` stands for the media id). -/
structure BotEnv where
  isLoggedIn : Bool
  loginResult : Bool
  fileExists : Bool
  sizeBytes : ℕ
  uploadResult : Except String ℕ
deriving Repr

inductive PostErr
  | loginFailed
  | fileNotFound
  | tooLarge
  | uploadErr (e : String)
deriving DecidableEq, Repr

/-- One attempt of `InstagramBot.post_reel`: ensure login, check the
file exists, check the size is at most 100 MB, then upload.  The
second component records whether the underlying upload call was
invoked. -/
def post_reel_once (env : BotEnv) : Except PostErr ℕ × Bool :=
  if !env.isLoggedIn && !env.loginResult then (.error .loginFailed, false)
  else if !env.fileExists then (.error .fileNotFound, false)
  else if 100 < (env.sizeBytes : ℚ) / (1024 * 1024) then
    (.error .tooLarge, false)
  else
    match env.uploadResult with
    | .ok m => (.ok m, true)
    | .error e => (.error (.uploadErr e), true)

/-- `InstagramBot.post_reel` with its `@retry(max_attempts=2,
delay=5.0)` decorator. -/
def post_reel (env : BotEnv) : Option (Except PostErr ℕ) × List ℚ :=
  retry 2 5 2 (fun _ => (post_reel_once env).1)

/-! ## scheduler.py: post_daily_reel

Python control flow with exceptions is embedded as the outcome type
`Py`: a normal return, a raised `Exception`, or a raised
`KeyboardInterrupt` (which the method deliberately re-raises). -/

inductive Py (α : Type)
  | ok : α → Py α
  | exc : String → Py α
  | intr : Py α
deriving Repr

def pbind {α β : Type} : Py α → (α → Py β) → Py β
  | .ok a, f => f a
  | .exc e, _ => .exc e
  | .intr, _ => .intr

/-- Outcomes of every stage `post_daily_reel` can call, in pipeline
order. -/
structure SchedulerEnv where
  componentsReady : Bool
  initComponents : Py Bool
  isLoggedIn : Py Bool
  login : Py Bool
  getContentForReel : Py ReelContent
  generateCaption : Py (List Char)
  generateReel : Py String
  validateVideoFile : String → Py Bool
  postReel : String → List Char → Py (Option ℕ)

/-- The `try` body of `ReelScheduler.post_daily_reel`. -/
def post_daily_reel_body (env : SchedulerEnv) : Py Bool :=
  pbind (if env.componentsReady then .ok true else env.initComponents)
    fun initOk =>
  if !initOk then .ok false else
  pbind env.isLoggedIn fun logged =>
  pbind (if logged then .ok true else env.login) fun loggedNow =>
  if !loggedNow then .ok false else
  pbind env.getContentForReel fun _content =>
  pbind env.generateCaption fun caption =>
  pbind env.generateReel fun reelPath =>
  pbind (env.validateVideoFile reelPath) fun valid =>
  if !valid then .exc "Invalid video file" else
  pbind (env.postReel reelPath caption) fun media =>
  match media with
  | some _ => .ok true
  | none => .ok false

/-- `ReelScheduler.post_daily_reel`: re-raise `KeyboardInterrupt`,
convert every other raised exception into a logged `False` return. -/
def post_daily_reel (env : SchedulerEnv) : Py Bool :=
  match post_daily_reel_body env with
  | .intr => .intr
  | .exc _ => .ok false
  | .ok b => .ok b

/-! ## Specification predicates and concrete instances used in theorems -/

/-- Everything `cleanup_temp_files` guarantees about a directory state:
non-matching files untouched, exactly `min keepRecent (#matching)`
matching files kept, the kept matching files are at least as recent as
every removed file, only matching files are removed, and a second run
changes nothing. -/
def CleanupSpec (files : List FileEntry) (pat : String → Bool)
    (keepRecent : ℕ) : Prop :=
  (cleanup_temp_files files pat keepRecent).filter
      (fun f => !(pat f.name)) = files.filter (fun f => !(pat f.name)) ∧
  ((cleanup_temp_files files pat keepRecent).filter
      (fun f => pat f.name)).length
    = min keepRecent (files.filter (fun f => pat f.name)).length ∧
  (∀ f ∈ cleanup_temp_files files pat keepRecent, ∀ g ∈ files,
    pat f.name = true → pat g.name = true →
    g ∉ cleanup_temp_files files pat keepRecent → g.mtime ≤ f.mtime) ∧
  (∀ g ∈ files, g ∉ cleanup_temp_files files pat keepRecent →
    pat g.name = true) ∧
  cleanup_temp_files (cleanup_temp_files files pat keepRecent) pat
      keepRecent
    = cleanup_temp_files files pat keepRecent

/-- An operation that fails twice, then succeeds. -/
def retryWitnessOp : ℕ → Except String ℕ :=
  fun i => if i < 2 then .error "boom" else .ok 42

/-- A filesystem with a single 1 MB file. -/
def fsWitness : String → Option ℕ :=
  fun p => if p = "reel.mp4" then some 1048576 else none

/-- A directory with a single matching file. -/
def cexCleanupFiles : List FileEntry := [⟨"old.jpg", 1⟩]

/-- A directory with two jpg files and one txt file. -/
def cleanupWitnessFiles : List FileEntry :=
  [⟨"a.jpg", 10⟩, ⟨"b.jpg", 20⟩, ⟨"c.txt", 30⟩]

/-- Pattern matching `*.jpg` names in `cleanupWitnessFiles`. -/
def jpgPat : String → Bool := fun n => n ≠ "c.txt"

/-- A concrete APOD fetch result. -/
def apodW : ApodRec :=
  { title := "Nebula X".toList, explanation := "Wow".toList,
    image_url := "http://img".toList, date := "2024-01-01".toList }

/-- A 2001-character body with one space inside the first 2000
characters. -/
def sC3w : List Char := 'a' :: ' ' :: List.replicate 1999 'b'

/-- Logged-in bot state with an existing file of exactly 100 MB
(104857600 bytes) and a succeeding upload. -/
def env100 : BotEnv :=
  { isLoggedIn := true, loginResult := false, fileExists := true,
    sizeBytes := 104857600, uploadResult := .ok 1 }

/-- Scheduler stages that all succeed except video validation. -/
def schedEnvW : SchedulerEnv :=
  { componentsReady := true, initComponents := .ok true,
    isLoggedIn := .ok true, login := .ok true,
    getContentForReel := .ok (newsOrDefault none),
    generateCaption := .ok [], generateReel := .ok "output/reel.mp4",
    validateVideoFile := fun _ => .ok false,
    postReel := fun _ _ => .ok (some 1) }

/-! ## Theorems -/

theorem eq_error_of_isErr {E A : Type} {x : Except E A}
    (h : isErr x = true) : ∃ e, x = .error e := by
  cases x with
  | error e => exact ⟨e, rfl⟩
  | ok v => simp [isErr] at h

theorem retryGo_of_ok {E A : Type} (op : ℕ → Except E A) (b : ℚ)
    (attempt : ℕ) (d : ℚ) (fuel : ℕ) (v : A) (hf : 1 ≤ fuel)
    (h : op attempt = .ok v) :
    retryGo op b attempt d fuel = (some (.ok v), []) := by
  match fuel, hf with
  | 1, _ => simp [retryGo, h]
  | n + 2, _ => simp [retryGo, h]

theorem retryGo_of_error {E A : Type} (op : ℕ → Except E A) (b : ℚ)
    (attempt n : ℕ) (d : ℚ) (e : E) (h : op attempt = .error e) :
    retryGo op b attempt d (n + 2) =
      ((retryGo op b (attempt + 1) (d * b) (n + 1)).1,
       d :: (retryGo op b (attempt + 1) (d * b) (n + 1)).2) := by
  simp [retryGo, h]

theorem retryGo_success {E A : Type} (op : ℕ → Except E A) (b : ℚ)
    (v : A) :
    ∀ (i fuel attempt : ℕ) (d : ℚ), i < fuel →
      (∀ j, j < i → isErr (op (attempt + j)) = true) →
      op (attempt + i) = .ok v →
      retryGo op b attempt d fuel =
        (some (.ok v), (List.range i).map fun k => d * b ^ k) := by
  intro i
  induction i with
  | zero =>
    intro fuel attempt d hf _ hok
    rw [Nat.add_zero] at hok
    simpa using retryGo_of_ok op b attempt d fuel v hf hok
  | succ i ih =>
    intro fuel attempt d hf herr hok
    obtain ⟨e, he⟩ := eq_error_of_isErr
      (by simpa using herr 0 (Nat.succ_pos i))
    match fuel, hf with
    | n + 2, _ =>
      rw [retryGo_of_error op b attempt n d e he,
        ih (n + 1) (attempt + 1) (d * b) (by omega)
          (fun j hj => by
            have := herr (j + 1) (by omega)
            simpa [Nat.add_assoc, Nat.add_comm 1 j] using this)
          (by simpa [Nat.add_assoc, Nat.add_comm 1 i] using hok)]
      refine Prod.ext rfl ?_
      show d :: (List.range i).map (fun k => d * b * b ^ k)
        = (List.range (i + 1)).map fun k => d * b ^ k
      rw [List.range_succ_eq_map, List.map_cons, List.map_map]
      refine congrArg₂ _ (by ring) (List.map_congr_left ?_)
      intro k _
      show d * b * b ^ k = d * b ^ (k + 1)
      ring

theorem retryGo_allfail {E A : Type} (op : ℕ → Except E A) (b : ℚ) :
    ∀ (fuel attempt : ℕ) (d : ℚ), 1 ≤ fuel →
      (∀ j, j < fuel → isErr (op (attempt + j)) = true) →
      retryGo op b attempt d fuel =
        (some (op (attempt + (fuel - 1))),
         (List.range (fuel - 1)).map fun k => d * b ^ k) := by
  intro fuel
  induction fuel using Nat.strong_induction_on with
  | _ fuel ih =>
    intro attempt d hf herr
    match fuel, hf with
    | 1, _ => simp [retryGo]
    | n + 2, _ =>
      obtain ⟨e, he⟩ := eq_error_of_isErr
        (by simpa using herr 0 (by omega))
      rw [retryGo_of_error op b attempt n d e he,
        ih (n + 1) (by omega) (attempt + 1) (d * b) (by omega)
          (fun j hj => by
            have := herr (j + 1) (by omega)
            simpa [Nat.add_assoc, Nat.add_comm 1 j] using this)]
      refine Prod.ext ?_ ?_
      · show some (op (attempt + 1 + (n + 1 - 1))) = some (op (attempt + (n + 2 - 1)))
        norm_num [Nat.add_assoc, Nat.add_comm 1 n]
      · show d :: (List.range (n + 1 - 1)).map (fun k => d * b * b ^ k)
          = (List.range (n + 2 - 1)).map fun k => d * b ^ k
        norm_num
        rw [List.range_succ_eq_map, List.map_cons, List.map_map]
        refine congrArg₂ _ (by ring) (List.map_congr_left ?_)
        intro k _
        show d * b * b ^ k = d * b ^ (k + 1)
        ring

/-- Claim C5: the retry wrapper invokes the wrapped operation up to
`maxAttempts` times; after the k-th consecutive failure (k < max) it
sleeps `delay * backoff^(k-1)` before the next attempt (the sleep list
is `[delay * backoff^0, …]`); if an attempt succeeds its result is
returned immediately with no further sleeps; after the final attempt
fails, that final failure is re-raised. -/
theorem retry_spec {E A : Type} (maxAttempts : ℕ) (delay backoff : ℚ)
    (op : ℕ → Except E A) :
    (∀ i v, i < maxAttempts →
      (∀ j, j < i → isErr (op j) = true) → op i = .ok v →
      retry maxAttempts delay backoff op =
        (some (.ok v), (List.range i).map fun k => delay * backoff ^ k)) ∧
    (1 ≤ maxAttempts → (∀ j, j < maxAttempts → isErr (op j) = true) →
      retry maxAttempts delay backoff op =
        (some (op (maxAttempts - 1)),
         (List.range (maxAttempts - 1)).map fun k => delay * backoff ^ k) ∧
      isErr (op (maxAttempts - 1)) = true) := by
  constructor
  · intro i v hi herr hok
    exact retryGo_success op backoff v i maxAttempts 0 delay hi
      (fun j hj => by simpa using herr j hj) (by simpa using hok)
  · intro hmax herr
    refine ⟨?_, herr _ (by omega)⟩
    simpa using retryGo_allfail op backoff maxAttempts 0 delay hmax
      (fun j hj => by simpa using herr j hj)

theorem retry_spec_witness :
    retry 3 1 2 retryWitnessOp = (some (.ok 42), [(1 : ℚ), 2]) := by
  have h := (retry_spec 3 1 2 retryWitnessOp).1 2 42 (by norm_num)
    (by decide) rfl
  rw [h]
  norm_num [List.range_succ]

/-- Claim C8: `validate_video_file` returns `false` for a nonexistent
path, `false` for an existing file below the minimum size, and `true`
for an existing file at or above it. -/
theorem validate_video_file_spec (fs : String → Option ℕ) (path : String)
    (minSizeMb : ℚ) :
    (fs path = none → validate_video_file fs path minSizeMb = false) ∧
    (∀ bytes, fs path = some bytes →
      ((bytes : ℚ) / (1024 * 1024) < minSizeMb →
        validate_video_file fs path minSizeMb = false) ∧
      (minSizeMb ≤ (bytes : ℚ) / (1024 * 1024) →
        validate_video_file fs path minSizeMb = true)) := by
  refine ⟨fun h => by simp [validate_video_file, h], fun bytes h => ?_⟩
  constructor
  · intro hlt
    simp [validate_video_file, h, hlt]
  · intro hge
    simp [validate_video_file, h, not_lt_of_le hge]

theorem validate_video_file_spec_witness :
    validate_video_file fsWitness "missing.mp4" (1 / 10) = false ∧
    validate_video_file fsWitness "reel.mp4" (1 / 10) = true :=
  ⟨(validate_video_file_spec fsWitness "missing.mp4" (1 / 10)).1 rfl,
   ((validate_video_file_spec fsWitness "reel.mp4" (1 / 10)).2 1048576
      rfl).2 (by norm_num)⟩

/-- The claim says `post_reel` raises whenever the file size is not
under the 100 MB ceiling; at exactly 100 MB (104857600 bytes) the code
does not raise: the validations pass, the underlying upload call is
invoked and its media result is returned. -/
theorem post_reel_cex :
    (env100.sizeBytes : ℚ) / (1024 * 1024) = 100 ∧
    post_reel_once env100 = (.ok 1, true) ∧
    post_reel env100 = (some (.ok 1), []) := by
  refine ⟨by norm_num [env100], ?_, ?_⟩
  · have : ¬(100 < (env100.sizeBytes : ℚ) / (1024 * 1024)) := by
      norm_num [env100]
    simp [post_reel_once, env100] at this ⊢
    norm_num
  · have h1 : post_reel_once env100 = (.ok 1, true) := by
      simp [post_reel_once, env100]
      norm_num
    simp [post_reel, retry, retryGo]
    rw [show ((post_reel_once env100).1 : Except PostErr ℕ) = .ok 1 by
      rw [h1]]

/-- Claim C7 (amended): one `post_reel` attempt raises when login is
needed and fails, raises `FileNotFoundError` when the video file does
not exist, raises `ValueError` when the file size strictly exceeds
100 MB (a file of exactly 100 MB is accepted), and invokes the
underlying upload call exactly when all validations pass; the whole
attempt is wrapped in `retry(max_attempts=2, delay=5.0)`, so a failed
attempt sleeps 5 seconds and is retried once, a successful attempt
returns immediately, and the second failure is re-raised. -/
theorem post_reel_spec (env : BotEnv) :
    (env.isLoggedIn = false → env.loginResult = false →
      post_reel_once env = (.error .loginFailed, false)) ∧
    ((env.isLoggedIn = true ∨ env.loginResult = true) →
      env.fileExists = false →
      post_reel_once env = (.error .fileNotFound, false)) ∧
    ((env.isLoggedIn = true ∨ env.loginResult = true) →
      env.fileExists = true →
      100 < (env.sizeBytes : ℚ) / (1024 * 1024) →
      post_reel_once env = (.error .tooLarge, false)) ∧
    ((post_reel_once env).2 = true ↔
      ((env.isLoggedIn = true ∨ env.loginResult = true) ∧
       env.fileExists = true ∧
       (env.sizeBytes : ℚ) / (1024 * 1024) ≤ 100)) ∧
    (∀ e, (post_reel_once env).1 = .error e →
      post_reel env = (some (.error e), [5])) ∧
    (∀ m, (post_reel_once env).1 = .ok m →
      post_reel env = (some (.ok m), [])) := by
  refine ⟨?_, ?_, ?_, ?_, ?_, ?_⟩
  · intro h1 h2
    simp [post_reel_once, h1, h2]
  · intro h1 h2
    have : (!env.isLoggedIn && !env.loginResult) = false := by
      rcases h1 with h | h <;> simp [h]
    simp [post_reel_once, this, h2]
  · intro h1 h2 h3
    have : (!env.isLoggedIn && !env.loginResult) = false := by
      rcases h1 with h | h <;> simp [h]
    simp [post_reel_once, this, h2, h3]
  · by_cases hs : (100 : ℚ) < (env.sizeBytes : ℚ) / (1024 * 1024)
    · rcases hl : env.isLoggedIn <;> rcases hr : env.loginResult <;>
        rcases hf : env.fileExists <;> rcases hu : env.uploadResult <;>
        simp [post_reel_once, hl, hr, hf, hu, hs, hs.not_le]
    · have hs2 := not_lt.mp hs
      rcases hl : env.isLoggedIn <;> rcases hr : env.loginResult <;>
        rcases hf : env.fileExists <;> rcases hu : env.uploadResult <;>
        simp [post_reel_once, hl, hr, hf, hu, hs, hs2]
  · intro e he
    simp [post_reel, retry, retryGo, he]
  · intro m hm
    simp [post_reel, retry, retryGo, hm]

theorem post_reel_spec_witness :
    post_reel_once ⟨false, false, true, 0, .ok 0⟩ =
      (.error .loginFailed, false) :=
  (post_reel_spec ⟨false, false, true, 0, .ok 0⟩).1 rfl rfl

/-- Claim C6: every `Exception` raised inside the `try` body of
`post_daily_reel` is caught and converted into a `False` return, and
`post_daily_reel` itself never lets an `Exception` escape (only a
`KeyboardInterrupt`, which the method deliberately re-raises, can
propagate). -/
theorem post_daily_reel_catches (env : SchedulerEnv) :
    (∀ e, post_daily_reel_body env = Py.exc e →
      post_daily_reel env = Py.ok false) ∧
    (∀ e, post_daily_reel env ≠ Py.exc e) := by
  constructor
  · intro e h
    simp [post_daily_reel, h]
  · intro e h
    unfold post_daily_reel at h
    rcases hb : post_daily_reel_body env with b | e2 | _ <;>
      rw [hb] at h <;> simp at h

theorem post_daily_reel_catches_witness :
    post_daily_reel schedEnvW = Py.ok false :=
  (post_daily_reel_catches schedEnvW).1 "Invalid video file" rfl

theorem descTrunc_length (s : List Char) : (descTrunc s).length ≤ 153 := by
  unfold descTrunc
  split
  · simp only [List.length_append, List.length_take, ellipsis,
      List.length_cons, List.length_nil]
    omega
  · omega

/-- Claim C10: `get_content_for_reel` always returns a record with the
five fields `type`, `title`, `text`, `image_url`, `description`
(guaranteed by the `ReelContent` structure), whose `type` is one of
`"apod"`, `"news"`, `"default"`, and whose `description` is at most
153 characters (a 150-character cut plus the 3-character ellipsis). -/
theorem get_content_for_reel_spec (apod : Option ApodRec)
    (news : Option NewsRec) :
    ((get_content_for_reel apod news).type = "apod" ∨
     (get_content_for_reel apod news).type = "news" ∨
     (get_content_for_reel apod news).type = "default") ∧
    (get_content_for_reel apod news).description.length ≤ 153 := by
  rcases apod with _ | a <;> rcases news with _ | n <;>
    simp [get_content_for_reel, newsOrDefault, descTrunc_length] <;>
    split <;>
    simp [newsOrDefault, descTrunc_length]

theorem pyJoin_cons_cons (sep x y : List Char) (rest : List (List Char)) :
    pyJoin sep (x :: y :: rest) = x ++ sep ++ pyJoin sep (y :: rest) :=
  rfl

theorem buildCaption_length_pos (c : CapContent) :
    0 < (buildCaption c).length := by
  have hrocket : 0 < ("🚀 ".toList).length := by decide
  unfold buildCaption
  rw [pyJoin_cons_cons]
  simp only [List.length_append]
  omega

/-- Claim C1: for every combination of source outcomes,
`generate_caption` returns a non-empty caption; the requested source is
used when it succeeds, the other source when the requested one fails,
and the hard-coded placeholder when both fail. -/
theorem generate_caption_spec (contentType : String)
    (apod : Option ApodRec) (news : Option NewsRec) :
    0 < (generate_caption contentType apod news).caption.length ∧
    (∀ a, contentType = "apod" → apod = some a →
      (generate_caption contentType apod news).content =
        contentOfApod a) ∧
    (∀ n, contentType = "apod" → apod = none → news = some n →
      (generate_caption contentType apod news).content =
        contentOfNews n) ∧
    (contentType = "apod" → apod = none → news = none →
      (generate_caption contentType apod news).content =
        placeholderContent) ∧
    (∀ n, contentType ≠ "apod" → news = some n →
      (generate_caption contentType apod news).content =
        contentOfNews n) ∧
    (∀ a, contentType ≠ "apod" → news = none → apod = some a →
      (generate_caption contentType apod news).content =
        contentOfApod a) ∧
    (contentType ≠ "apod" → news = none → apod = none →
      (generate_caption contentType apod news).content =
        placeholderContent) := by
  refine ⟨buildCaption_length_pos _, ?_, ?_, ?_, ?_, ?_, ?_⟩
  · intro a hct ha
    subst hct; subst ha
    simp [generate_caption, selectContent]
  · intro n hct ha hn
    subst hct; subst ha; subst hn
    simp [generate_caption, selectContent]
  · intro hct ha hn
    subst hct; subst ha; subst hn
    simp [generate_caption, selectContent]
  · intro n hct hn
    subst hn
    simp [generate_caption, selectContent, hct]
  · intro a hct hn ha
    subst hn; subst ha
    simp [generate_caption, selectContent, hct]
  · intro hct hn ha
    subst hn; subst ha
    simp [generate_caption, selectContent, hct]

theorem generate_caption_spec_witness :
    0 < (generate_caption "apod" (some apodW) none).caption.length ∧
    (generate_caption "apod" (some apodW) none).content =
      contentOfApod apodW :=
  ⟨(generate_caption_spec "apod" (some apodW) none).1,
   (generate_caption_spec "apod" (some apodW) none).2.1 apodW rfl rfl⟩

theorem beforeLastSpace_of_not_mem {l : List Char} (h : ' ' ∉ l) :
    beforeLastSpace l = l := by
  unfold beforeLastSpace
  have hd : l.reverse.dropWhile (fun c => !(c == ' ')) = [] := by
    rw [List.dropWhile_eq_nil_iff]
    intro x hx
    rw [List.mem_reverse] at hx
    simp only [Bool.not_eq_true', beq_eq_false_iff_ne, ne_eq]
    intro hxe
    exact h (hxe ▸ hx)
  rw [hd]

theorem beforeLastSpace_split {l : List Char} (h : ' ' ∈ l) :
    ∃ rest : List Char,
      l = beforeLastSpace l ++ ' ' :: rest ∧ ' ' ∉ rest := by
  have hne : l.reverse.dropWhile (fun c => !(c == ' ')) ≠ [] := by
    intro hnil
    have := (List.dropWhile_eq_nil_iff.mp hnil) ' '
      (List.mem_reverse.mpr h)
    simp at this
  obtain ⟨c, rest2, hd⟩ := List.exists_cons_of_ne_nil hne
  have hc : c = ' ' := by
    have hph := List.head?_dropWhile_not (fun c => !(c == ' ')) l.reverse
    rw [hd] at hph
    simpa using hph
  subst hc
  have hdec : l.reverse =
      l.reverse.takeWhile (fun c => !(c == ' ')) ++ (' ' :: rest2) := by
    rw [← hd, List.takeWhile_append_dropWhile]
  have hb : beforeLastSpace l = rest2.reverse := by
    unfold beforeLastSpace
    rw [hd]
  have h0 := congrArg List.reverse hdec
  rw [List.reverse_reverse, List.reverse_append] at h0
  refine ⟨(l.reverse.takeWhile (fun c => !(c == ' '))).reverse, ?_, ?_⟩
  · rw [hb]
    conv_lhs => rw [h0]
    simp [List.reverse_cons, List.append_assoc]
  · intro hmem
    rw [List.mem_reverse] at hmem
    have := List.mem_takeWhile_imp hmem
    simp at this

/-- The claim says the truncation step keeps the result within the
2000-character budget and cuts at a word boundary; on a 2001-character
body with no space the code keeps all 2000 truncated characters
(cutting mid-word) and appends the ellipsis, producing 2003 characters,
which exceeds the budget. -/
theorem truncate_caption_cex :
    truncate_caption_text (List.replicate 2001 'a')
      = List.replicate 2000 'a' ++ ellipsis ∧
    (truncate_caption_text (List.replicate 2001 'a')).length = 2003 ∧
    ¬((truncate_caption_text (List.replicate 2001 'a')).length ≤ 2000) := by
  have htake : (List.replicate 2001 'a').take 2000
      = List.replicate 2000 'a' := by
    rw [List.take_replicate]
    norm_num
  have hnosp : (' ') ∉ List.replicate 2000 'a' := by
    intro hmem
    have := List.eq_of_mem_replicate hmem
    simp at this
  have h1 : truncate_caption_text (List.replicate 2001 'a')
      = List.replicate 2000 'a' ++ ellipsis := by
    unfold truncate_caption_text
    rw [if_pos (by rw [List.length_replicate]; norm_num), htake,
      beforeLastSpace_of_not_mem hnosp]
  have h2 : (List.replicate 2000 'a' ++ ellipsis).length = 2003 := by
    simp only [List.length_append, List.length_replicate, ellipsis,
      List.length_cons, List.length_nil]
  exact ⟨h1, by rw [h1, h2], by rw [h1, h2]; norm_num⟩

/-- Claim C3 (amended): for a body longer than the 2000-character
budget, the truncation step produces `pre ++ "..."` of length at most
2003 (budget plus 3-character ellipsis marker), where `pre` is a
prefix of the first 2000 characters; when those 2000 characters
contain a space, `pre` ends exactly before the last space (a word
boundary). -/
theorem truncate_caption_amended (s : List Char) (h : 2000 < s.length) :
    (truncate_caption_text s).length ≤ 2003 ∧
    ∃ pre : List Char,
      truncate_caption_text s = pre ++ ellipsis ∧
      pre <+: s.take 2000 ∧
      ((' ' ∈ s.take 2000) →
        ∃ rest : List Char,
          s.take 2000 = pre ++ ' ' :: rest ∧ ' ' ∉ rest) := by
  have ht : truncate_caption_text s
      = beforeLastSpace (s.take 2000) ++ ellipsis := by
    unfold truncate_caption_text
    rw [if_pos h]
  have htlen : (s.take 2000).length = 2000 := by
    rw [List.length_take]
    omega
  by_cases hsp : (' ') ∈ s.take 2000
  · obtain ⟨rest, hsplit, hrest⟩ := beforeLastSpace_split hsp
    have hple : (beforeLastSpace (s.take 2000)).length + rest.length + 1
        = 2000 := by
      have hlen2 := congrArg List.length hsplit
      rw [htlen] at hlen2
      simp only [List.length_append, List.length_cons] at hlen2
      omega
    refine ⟨?_, beforeLastSpace (s.take 2000), ht,
      ⟨' ' :: rest, hsplit.symm⟩, fun _ => ⟨rest, hsplit, hrest⟩⟩
    rw [ht]
    simp only [List.length_append, ellipsis, List.length_cons,
      List.length_nil]
    omega
  · have heq := beforeLastSpace_of_not_mem hsp
    refine ⟨?_, beforeLastSpace (s.take 2000), ht,
      by rw [heq], fun hc => absurd hc hsp⟩
    rw [ht, heq]
    simp only [List.length_append, ellipsis, List.length_cons,
      List.length_nil]
    omega

theorem truncate_caption_amended_witness :
    2000 < sC3w.length ∧ (truncate_caption_text sC3w).length ≤ 2003 :=
  have hlen : 2000 < sC3w.length := by
    simp only [sC3w, List.length_cons, List.length_replicate]
    norm_num
  ⟨hlen, (truncate_caption_amended sC3w hlen).1⟩

theorem pyJoin_singleton (sep x : List Char) : pyJoin sep [x] = x := rfl

theorem pyJoin_append (sep : List Char) :
    ∀ xs ys : List (List Char), xs ≠ [] → ys ≠ [] →
      pyJoin sep (xs ++ ys) = pyJoin sep xs ++ sep ++ pyJoin sep ys := by
  intro xs
  induction xs with
  | nil => intro ys hxs _; exact absurd rfl hxs
  | cons x xs ih =>
    intro ys _ hys
    cases xs with
    | nil =>
      cases ys with
      | nil => exact absurd rfl hys
      | cons y ys2 => simp [pyJoin]
    | cons x2 xs2 =>
      have h2 := ih ys (by simp) hys
      calc pyJoin sep ((x :: x2 :: xs2) ++ ys)
          = x ++ sep ++ pyJoin sep ((x2 :: xs2) ++ ys) := rfl
        _ = x ++ sep ++ (pyJoin sep (x2 :: xs2) ++ sep ++ pyJoin sep ys) := by
            rw [h2]
        _ = pyJoin sep (x :: x2 :: xs2) ++ sep ++ pyJoin sep ys := by
            rw [pyJoin_cons_cons]
            simp [List.append_assoc]

theorem pyJoin_map_pyJoin :
    ∀ wss : List (List (List Char)), (∀ ws ∈ wss, ws ≠ []) →
      pyJoin [' '] (wss.map (pyJoin [' ']))
        = pyJoin [' '] wss.flatten := by
  intro wss
  induction wss with
  | nil => intro _; rfl
  | cons ws wss ih =>
    intro h
    cases wss with
    | nil => simp [pyJoin]
    | cons ws2 wss2 =>
      have h1 : ws ≠ [] := h ws (List.mem_cons_self ws _)
      have h2 : ws2 ≠ [] := h ws2 (by simp)
      have hfl : (ws2 :: wss2).flatten ≠ [] := by
        cases ws2 with
        | nil => exact absurd rfl h2
        | cons c ws2t => simp
      calc pyJoin [' '] ((ws :: ws2 :: wss2).map (pyJoin [' ']))
          = pyJoin [' '] ws ++ [' ']
              ++ pyJoin [' '] ((ws2 :: wss2).map (pyJoin [' '])) := rfl
        _ = pyJoin [' '] ws ++ [' ']
              ++ pyJoin [' '] (ws2 :: wss2).flatten := by
            rw [ih (fun w hw => h w (List.mem_cons_of_mem _ hw))]
        _ = pyJoin [' '] (ws ++ (ws2 :: wss2).flatten) := by
            rw [pyJoin_append [' '] ws _ h1 hfl]
        _ = pyJoin [' '] (ws :: ws2 :: wss2).flatten := rfl

theorem pyWords_nil : pyWords [] = [] := rfl

theorem pyWords_space_cons {c : Char} (hc : c.isWhitespace = true)
    (rest : List Char) : pyWords (c :: rest) = pyWords rest := by
  simp [pyWords, hc]

theorem pyWords_nonspace_space {a d : Char} (ha : a.isWhitespace = false)
    (hd : d.isWhitespace = true) (rest : List Char) :
    pyWords (a :: d :: rest) = [a] :: pyWords (d :: rest) := by
  conv_lhs => rw [pyWords]
  simp [ha, hd, pyWords_space_cons hd]

theorem pyWords_nonspace_nonspace {a d : Char}
    (ha : a.isWhitespace = false) (hd : d.isWhitespace = false)
    (rest : List Char) :
    pyWords (a :: d :: rest) =
      match pyWords (d :: rest) with
      | w :: ws2 => (a :: w) :: ws2
      | [] => [[a]] := by
  conv_lhs => rw [pyWords]
  simp [ha, hd]

theorem pyWords_sound :
    ∀ (l : List Char) (w : List Char), w ∈ pyWords l →
      w ≠ [] ∧ ∀ c ∈ w, c.isWhitespace = false := by
  intro l
  induction l with
  | nil => intro w hw; simp [pyWords] at hw
  | cons c rest ih =>
    intro w hw
    rcases hc : c.isWhitespace with _ | _
    · cases rest with
      | nil =>
        simp [pyWords, hc] at hw
        subst hw
        exact ⟨by simp, by simpa using hc⟩
      | cons d rest2 =>
        rcases hd : d.isWhitespace with _ | _
        · rw [pyWords_nonspace_nonspace hc hd] at hw
          rcases hp : pyWords (d :: rest2) with _ | ⟨w1, ws2⟩
          · rw [hp] at hw
            simp at hw
            subst hw
            exact ⟨by simp, by simpa using hc⟩
          · rw [hp] at hw
            rcases List.mem_cons.mp hw with rfl | hmem
            · obtain ⟨_, hw1c⟩ := ih w1 (hp ▸ List.mem_cons_self w1 ws2)
              refine ⟨by simp, ?_⟩
              intro x hx
              rcases List.mem_cons.mp hx with rfl | hx2
              · exact hc
              · exact hw1c x hx2
            · exact ih w (hp ▸ List.mem_cons_of_mem w1 hmem)
        · rw [pyWords_nonspace_space hc hd] at hw
          rcases List.mem_cons.mp hw with rfl | hmem
          · exact ⟨by simp, by simpa using hc⟩
          · exact ih w hmem
    · rw [pyWords_space_cons hc] at hw
      exact ih w hw

theorem pyWords_word_append :
    ∀ w t : List Char, w ≠ [] → (∀ c ∈ w, c.isWhitespace = false) →
      (t = [] ∨ ∃ u, t = ' ' :: u) →
      pyWords (w ++ t) = w :: pyWords t := by
  intro w
  induction w with
  | nil => intro t hne _ _; exact absurd rfl hne
  | cons a w ih =>
    intro t _ hns ht
    have ha : a.isWhitespace = false := hns a (List.mem_cons_self a w)
    cases w with
    | nil =>
      rcases ht with rfl | ⟨u, rfl⟩
      · simp [pyWords, ha]
      · simpa [List.cons_append] using
          pyWords_nonspace_space ha (by decide) u
    | cons b w2 =>
      have hb : b.isWhitespace = false := hns b (by simp)
      have ih2 := ih t (by simp) (fun c hc => hns c (by simp [hc])) ht
      rw [List.cons_append] at ih2 ⊢
      rw [List.cons_append, pyWords_nonspace_nonspace ha hb (w2 ++ t),
        ih2]

theorem pyWords_pyJoin :
    ∀ ws : List (List Char),
      (∀ w ∈ ws, w ≠ [] ∧ ∀ c ∈ w, c.isWhitespace = false) →
      pyWords (pyJoin [' '] ws) = ws := by
  intro ws
  induction ws with
  | nil => intro _; rfl
  | cons w ws ih =>
    intro h
    obtain ⟨hw, hwc⟩ := h w (List.mem_cons_self w ws)
    cases ws with
    | nil =>
      simpa using pyWords_word_append w [] hw hwc (Or.inl rfl)
    | cons w2 ws2 =>
      rw [pyJoin_cons_cons, List.append_assoc, List.singleton_append,
        pyWords_word_append w _ hw hwc (Or.inr ⟨_, rfl⟩),
        pyWords_space_cons (by decide),
        ih (fun x hx => h x (List.mem_cons_of_mem w hx))]

theorem wrapAux_flatten (wfn : List Char → ℕ) (maxW : ℕ) :
    ∀ (words current : List (List Char))
      (lines : List (List (List Char))),
      (wrapAux wfn maxW words current lines).flatten
        = lines.flatten ++ current ++ words := by
  intro words
  induction words with
  | nil =>
    intro current lines
    unfold wrapAux
    split
    · rename_i hemp
      simp [List.isEmpty_iff.mp hemp]
    · simp
  | cons word rest ih =>
    intro current lines
    unfold wrapAux
    split
    · rw [ih]
      simp [List.append_assoc]
    · split
      · rename_i hemp
        rw [ih]
        simp [List.isEmpty_iff.mp hemp]
      · rw [ih]
        simp [List.append_assoc]

theorem wrapAux_lines_ne (wfn : List Char → ℕ) (maxW : ℕ) :
    ∀ (words current : List (List Char))
      (lines : List (List (List Char))),
      (∀ L ∈ lines, L ≠ []) →
      ∀ L ∈ wrapAux wfn maxW words current lines, L ≠ [] := by
  intro words
  induction words with
  | nil =>
    intro current lines hlines L hL
    unfold wrapAux at hL
    split at hL
    · exact hlines L hL
    · rename_i hemp
      rcases List.mem_append.mp hL with hmem | hmem
      · exact hlines L hmem
      · simp at hmem
        subst hmem
        simpa [List.isEmpty_iff] using hemp
  | cons word rest ih =>
    intro current lines hlines L hL
    unfold wrapAux at hL
    split at hL
    · exact ih _ _ hlines L hL
    · split at hL
      · exact ih _ _ hlines L hL
      · rename_i hemp
        refine ih _ _ ?_ L hL
        intro L2 hL2
        rcases List.mem_append.mp hL2 with hmem | hmem
        · exact hlines L2 hmem
        · simp at hmem
          subst hmem
          simpa [List.isEmpty_iff] using hemp

theorem wrapAux_width (wfn : List Char → ℕ) (maxW : ℕ) :
    ∀ (words current : List (List Char))
      (lines : List (List (List Char))),
      (∀ w ∈ words, wfn w ≤ maxW) →
      (current = [] ∨ wfn (pyJoin [' '] current) ≤ maxW) →
      (∀ L ∈ lines, wfn (pyJoin [' '] L) ≤ maxW) →
      ∀ L ∈ wrapAux wfn maxW words current lines,
        wfn (pyJoin [' '] L) ≤ maxW := by
  intro words
  induction words with
  | nil =>
    intro current lines _ hcur hlines L hL
    unfold wrapAux at hL
    split at hL
    · exact hlines L hL
    · rename_i hemp
      rcases List.mem_append.mp hL with hmem | hmem
      · exact hlines L hmem
      · simp at hmem
        subst hmem
        rcases hcur with hcur | hcur
        · rw [hcur] at hemp
          simp at hemp
        · exact hcur
  | cons word rest ih =>
    intro current lines hwords hcur hlines L hL
    have hword : wfn word ≤ maxW := hwords word (List.mem_cons_self _ _)
    have hrest : ∀ w ∈ rest, wfn w ≤ maxW :=
      fun w hw => hwords w (List.mem_cons_of_mem _ hw)
    unfold wrapAux at hL
    split at hL
    · rename_i hfit
      exact ih _ _ hrest (Or.inr hfit) hlines L hL
    · split at hL
      · exact ih _ _ hrest (Or.inr (by simpa [pyJoin] using hword))
          hlines L hL
      · rename_i hemp
        refine ih _ _ hrest (Or.inr (by simpa [pyJoin] using hword))
          ?_ L hL
        intro L2 hL2
        rcases List.mem_append.mp hL2 with hmem | hmem
        · exact hlines L2 hmem
        · simp at hmem
          subst hmem
          rcases hcur with hcur | hcur
          · rw [hcur] at hemp
            simp at hemp
          · exact hcur

theorem monoWidth_charCount : MonoWidth charCountWidth := by
  intro s t
  simp [charCountWidth]

/-- The claim says every line stays within the maximum for every
monotonic width function; with the (monotone) character-count width
and budget 1, the single word "ab" becomes a line of measured width
2 > 1, so a returned line can exceed the maximum. -/
theorem wrap_text_width_cex :
    MonoWidth charCountWidth ∧
    wrapText ('a' :: 'b' :: []) charCountWidth 1
      = ('a' :: 'b' :: []) :: [] ∧
    1 < charCountWidth ('a' :: 'b' :: []) :=
  ⟨monoWidth_charCount, by decide, by decide⟩

/-- Claim C2 (amended): for every text and monotonic width measurement
under which every individual word of the text measures at most the
configured maximum, every line returned by `_wrap_text` has measured
width at most the maximum.  (A single word wider than the maximum
becomes its own overflowing line, hence the extra hypothesis.) -/
theorem wrap_text_width_amended (text : List Char)
    (wfn : List Char → ℕ) (maxW : ℕ) (_hmono : MonoWidth wfn)
    (hwords : ∀ w ∈ pyWords text, wfn w ≤ maxW) :
    ∀ line ∈ wrapText text wfn maxW, wfn line ≤ maxW := by
  intro line hline
  obtain ⟨L, hL, rfl⟩ := List.mem_map.mp hline
  exact wrapAux_width wfn maxW (pyWords text) [] [] hwords (Or.inl rfl)
    (by simp) L hL

theorem wrap_text_width_amended_witness :
    MonoWidth charCountWidth ∧
    charCountWidth ("aa bb".toList) ≤ 5 :=
  ⟨monoWidth_charCount,
   wrap_text_width_amended ("aa bb cc".toList) charCountWidth 5
     monoWidth_charCount (by decide) ("aa bb".toList) (by decide)⟩

/-- Claim C9: `_wrap_text` preserves the words of the input: splitting the
space-joined returned lines yields exactly the whitespace-split word
sequence of the input, with nothing dropped, duplicated, or
reordered; empty or all-whitespace input yields no lines. -/
theorem wrap_text_preserves_words (text : List Char)
    (wfn : List Char → ℕ) (maxW : ℕ) :
    pyWords (pyJoin [' '] (wrapText text wfn maxW)) = pyWords text ∧
    (pyWords text = [] → wrapText text wfn maxW = []) := by
  constructor
  · unfold wrapText
    have hflat : (wrapAux wfn maxW (pyWords text) [] []).flatten
        = pyWords text := by
      rw [wrapAux_flatten]
      simp
    have hne : ∀ L ∈ wrapAux wfn maxW (pyWords text) [] [], L ≠ [] :=
      wrapAux_lines_ne wfn maxW (pyWords text) [] [] (by simp)
    rw [pyJoin_map_pyJoin _ hne, hflat,
      pyWords_pyJoin _ (fun w hw => pyWords_sound text w hw)]
  · intro h
    unfold wrapText
    rw [h]
    rfl

theorem wrap_text_preserves_words_witness :
    wrapText (' ' :: ' ' :: []) charCountWidth 5 = [] :=
  (wrap_text_preserves_words (' ' :: ' ' :: []) charCountWidth 5).2
    (by decide)

/-- The claim says cleanup keeps exactly `keep_recent` matching files;
on a directory with a single matching file and `keep_recent = 5` the
code keeps that one file, not five. -/
theorem cleanup_temp_files_cex :
    cleanup_temp_files cexCleanupFiles (fun _ => true) 5
      = cexCleanupFiles ∧
    ((cleanup_temp_files cexCleanupFiles (fun _ => true) 5).filter
      (fun f => (fun (_ : String) => true) f.name)).length = 1 ∧
    (1 : ℕ) ≠ 5 := by
  refine ⟨?_, ?_, by norm_num⟩ <;> decide

/-- Claim C4 (amended): for every directory state with distinct file
names, `cleanup_temp_files` leaves non-matching files untouched, keeps
exactly `min keep_recent (number of matching files)` matching files
(so exactly `keep_recent` whenever at least that many match), keeps
only most-recently-modified ones (every kept matching file has mtime
at least that of every removed file), removes only matching files, and
is idempotent. -/
theorem cleanup_temp_files_spec (files : List FileEntry)
    (pat : String → Bool) (keepRecent : ℕ)
    (hnd : (files.map FileEntry.name).Nodup) :
    CleanupSpec files pat keepRecent := by
  obtain ⟨S, hSdef⟩ : ∃ S,
      S = (files.filter (fun f => pat f.name)).insertionSort
        recentFirst := ⟨_, rfl⟩
  have hclean : cleanup_temp_files files pat keepRecent
      = files.filter (fun f => !(decide (f ∈ S.drop keepRecent))) := by
    rw [hSdef]
    rfl
  have hfiles_nd : files.Nodup := List.Nodup.of_map _ hnd
  have hM_nd : (files.filter (fun f => pat f.name)).Nodup :=
    hfiles_nd.filter _
  have hperm : S.Perm (files.filter (fun f => pat f.name)) := by
    rw [hSdef]
    exact List.perm_insertionSort recentFirst _
  have hsorted : List.Pairwise recentFirst S := by
    rw [hSdef]
    exact List.sorted_insertionSort recentFirst _
  have hS_nd : S.Nodup := hperm.nodup_iff.mpr hM_nd
  have hdisj : ∀ x ∈ S.take keepRecent, x ∉ S.drop keepRecent := by
    have h2 : (S.take keepRecent ++ S.drop keepRecent).Nodup := by
      rw [List.take_append_drop]
      exact hS_nd
    exact fun x hx hxD => (List.nodup_append.mp h2).2.2 hx hxD
  have hD_sub : ∀ x ∈ S.drop keepRecent,
      x ∈ files.filter (fun f => pat f.name) :=
    fun x hx => hperm.subset (List.drop_subset _ _ hx)
  have hT_sub : ∀ x ∈ S.take keepRecent,
      x ∈ files.filter (fun f => pat f.name) :=
    fun x hx => hperm.subset (List.take_subset _ _ hx)
  have hgD : ∀ g ∈ files, g ∉ cleanup_temp_files files pat keepRecent →
      g ∈ S.drop keepRecent := by
    intro g hg hgnot
    by_contra hnot
    exact hgnot (by
      rw [hclean]
      exact List.mem_filter.mpr ⟨hg, by simp [hnot]⟩)
  have hmemT : ∀ f, f ∈ cleanup_temp_files files pat keepRecent →
      pat f.name = true → f ∈ S.take keepRecent := by
    intro f hf hp
    rw [hclean] at hf
    obtain ⟨hffiles, hfd⟩ := List.mem_filter.mp hf
    have hfD : f ∉ S.drop keepRecent := by simpa using hfd
    have hfS : f ∈ S :=
      hperm.mem_iff.mpr (List.mem_filter.mpr ⟨hffiles, hp⟩)
    rw [← List.take_append_drop keepRecent S] at hfS
    rcases List.mem_append.mp hfS with h | h
    · exact h
    · exact absurd h hfD
  have hmemT2 : ∀ f, f ∈ S.take keepRecent →
      f ∈ cleanup_temp_files files pat keepRecent ∧ pat f.name = true := by
    intro f hf
    have hfM := hT_sub f hf
    obtain ⟨hffiles, hp⟩ := List.mem_filter.mp hfM
    refine ⟨?_, hp⟩
    rw [hclean]
    exact List.mem_filter.mpr ⟨hffiles, by simp [hdisj f hf]⟩
  have hcount : ((cleanup_temp_files files pat keepRecent).filter
        (fun f => pat f.name)).length
      = min keepRecent (files.filter (fun f => pat f.name)).length := by
    have hres_nd : (cleanup_temp_files files pat keepRecent).Nodup := by
      rw [hclean]
      exact hfiles_nd.filter _
    have hresM_nd : ((cleanup_temp_files files pat keepRecent).filter
        (fun f => pat f.name)).Nodup := hres_nd.filter _
    have hT_nd : (S.take keepRecent).Nodup :=
      List.Nodup.sublist (List.take_sublist _ _) hS_nd
    have hiff : ∀ x,
        x ∈ (cleanup_temp_files files pat keepRecent).filter
          (fun f => pat f.name) ↔ x ∈ S.take keepRecent := by
      intro x
      constructor
      · intro hx
        obtain ⟨hx1, hx2⟩ := List.mem_filter.mp hx
        exact hmemT x hx1 hx2
      · intro hx
        obtain ⟨h1, h2⟩ := hmemT2 x hx
        exact List.mem_filter.mpr ⟨h1, h2⟩
    have hpermT : ((cleanup_temp_files files pat keepRecent).filter
        (fun f => pat f.name)).Perm (S.take keepRecent) :=
      (List.perm_ext_iff_of_nodup hresM_nd hT_nd).mpr hiff
    rw [hpermT.length_eq, List.length_take, hperm.length_eq]
  refine ⟨?_, hcount, ?_, ?_, ?_⟩
  · rw [hclean, List.filter_filter]
    apply List.filter_congr
    intro x _
    by_cases hp : pat x.name
    · simp [hp]
    · have hxD : x ∉ S.drop keepRecent := by
        intro hmem
        exact hp ((List.mem_filter.mp (hD_sub x hmem)).2)
      simp [hp, hxD]
  · intro f hf g hg hpf _ hgnot
    have hfT := hmemT f hf hpf
    have hgdrop := hgD g hg hgnot
    have hpair : List.Pairwise recentFirst
        (S.take keepRecent ++ S.drop keepRecent) := by
      rw [List.take_append_drop]
      exact hsorted
    exact (List.pairwise_append.mp hpair).2.2 f hfT g hgdrop
  · intro g hg hgnot
    exact (List.mem_filter.mp (hD_sub g (hgD g hg hgnot))).2
  · have hlen2 : ((cleanup_temp_files files pat keepRecent).filter
        (fun f => pat f.name)).length ≤ keepRecent := by
      rw [hcount]
      exact min_le_left _ _
    have hD2 : (((cleanup_temp_files files pat keepRecent).filter
          (fun f => pat f.name)).insertionSort recentFirst).drop
        keepRecent = [] := by
      apply List.drop_eq_nil_of_le
      rw [(List.perm_insertionSort recentFirst _).length_eq]
      exact hlen2
    have hunfold : cleanup_temp_files
        (cleanup_temp_files files pat keepRecent) pat keepRecent
      = (cleanup_temp_files files pat keepRecent).filter
          (fun f => !(decide (f ∈ (((cleanup_temp_files files pat
            keepRecent).filter (fun f => pat f.name)).insertionSort
              recentFirst).drop keepRecent))) := rfl
    rw [hunfold, hD2]
    simp

theorem cleanup_temp_files_spec_witness :
    CleanupSpec cleanupWitnessFiles jpgPat 1 :=
  cleanup_temp_files_spec cleanupWitnessFiles jpgPat 1 (by decide)

end InstaAuto
